import Mathlib

/-!
Shallow embedding of the relevance-ranking core of the shoe-recognition
backend (`findRelevantProducts` and its helpers).

Modelling conventions for the JavaScript source:
* a JS value that may be `undefined` is an `Option`;
* JS string truthiness (`if (s)`) is `s ≠ ""` on a present string and
  `false` on `undefined`;
* the template-literal coercion `${x}` renders `undefined` as the string
  `"undefined"`;
* a thrown `TypeError` (property access / method call on `undefined`) is
  an `Except.error`; computations that can throw live in
  `Except String`;
* `String.prototype.includes` is substring containment;
* `String.prototype.split(" ")` splits at every single space character,
  keeping empty pieces;
* `Array.prototype.sort` with comparator `(a, b) => b.score - a.score`
  is stable (ECMA-262); it is modelled by a stable insertion sort that
  keeps the original relative order of equal scores.  A positional index
  `idx` is carried through scoring as ghost data so that order
  properties can be stated; the source keeps this order implicitly in
  the array.
-/

namespace ShoeRank

/-- One catalog row as produced by the CSV loader.  Any key can be
missing from a row, hence every field is optional. -/
structure Product where
  Handle : Option String
  Title : Option String
  BodyHTML : Option String
  Tags : Option String
  Vendor : Option String
  VariantPrice : Option String
  ImageSrc : Option String
deriving DecidableEq, Repr

/-- One entry of `shoeDetails.cleaningRecommendations`. -/
structure CleaningRec where
  affectedPart : Option String
  recommendations : Option (List String)
deriving DecidableEq, Repr

/-- The structured shoe description (`shoeDetails`).  `materials` holds
`Object.values(shoeDetails.materials)` in object key order. -/
structure ShoeDetails where
  brandAndModel : Option String
  materials : Option (List String)
  cleaningRecommendations : Option (List CleaningRec)
  recommendedTags : Option (List String)
deriving DecidableEq, Repr

/-- The `toLowerCase` conversion modelled character-wise (`Char.toLower`; the data of
this application is ASCII), in a structurally recursive form. -/
def lowerStr (s : String) : String :=
  ⟨s.data.map Char.toLower⟩

/-- Split a character list at every occurrence of `sep`, keeping empty
pieces, as `String.prototype.split` does. -/
def splitC (sep : Char) : List Char → List (List Char)
  | [] => [[]]
  | c :: cs =>
      if c == sep then [] :: splitC sep cs
      else
        match splitC sep cs with
        | r :: rs => (c :: r) :: rs
        | [] => [[c]]

/-- JS template-literal coercion: `${undefined}` renders as "undefined". -/
def jsStr : Option String → String
  | none => "undefined"
  | some s => s

/-- JS truthiness of a string-or-undefined value. -/
def jsTruthy : Option String → Bool
  | none => false
  | some s => s ≠ ""

/-- Is `pat` a prefix-at-some-position (contiguous substring) of `l`?
Models `String.prototype.includes` at the character-list level. -/
def isSubstrAux (pat : List Char) : List Char → Bool
  | [] => pat.isEmpty
  | c :: cs => List.isPrefixOf pat (c :: cs) || isSubstrAux pat cs

/-- The call `s.includes(pat)` is modelled by `jsIncludes s pat`. -/
def jsIncludes (s pat : String) : Bool :=
  isSubstrAux pat.toList s.toList

/-- Model of `s.split(" ")`: split at every single space, keeping empty pieces. -/
def spaceSplit (s : String) : List String :=
  (splitC ' ' s.data).map fun l => ⟨l⟩

/-- The fixed stopword list of the keyword extractor. -/
def stopwords : List String :=
  ["with", "and", "the", "for", "your", "that", "this", "then", "use"]

/-- Keywords contributed by the `materials` values: each truthy
(non-empty) value that is not a sentinel, lower-cased, in order. -/
def materialKeywords (ms : List String) : List String :=
  ms.filterMap fun m =>
    if m ≠ "" && lowerStr m != "unknown" && lowerStr m != "unspecified" then
      some (lowerStr m)
    else none

/-- Keywords contributed by one `cleaningRecommendations` entry: the
truthy `affectedPart` lower-cased, then for each recommendation string
the lower-cased space-split words of length > 3 that are not stopwords.
Accessing `rec.recommendations.forEach` on a missing field throws. -/
def recKeywords (rec : CleaningRec) : Except String (List String) :=
  let part : List String :=
    match rec.affectedPart with
    | some a => if a ≠ "" then [lowerStr a] else []
    | none => []
  match rec.recommendations with
  | none => .error "TypeError: rec.recommendations is undefined"
  | some rs =>
      .ok (part ++ rs.flatMap fun r =>
        (spaceSplit (lowerStr r)).filter fun w =>
          w.length > 3 && !(stopwords.contains w))

/-- Keywords of a list of `cleaningRecommendations` entries, in order. -/
def recsKeywords : List CleaningRec → Except String (List String)
  | [] => .ok []
  | r :: rs => do
      let k ← recKeywords r
      let ks ← recsKeywords rs
      .ok (k ++ ks)

/-- Keyword extraction of `findRelevantProducts` (part_000 lines
218-279): brand/model words, material values, cleaning-recommendation
words, then recommended tags, in that order, no deduplication. -/
def extractKeywords (sd : ShoeDetails) : Except String (List String) :=
  let kw1 : List String :=
    match sd.brandAndModel with
    | some b => if b ≠ "" then spaceSplit (lowerStr b) else []
    | none => []
  let kw2 : List String :=
    match sd.materials with
    | some ms => materialKeywords ms
    | none => []
  let kw4 : List String :=
    match sd.recommendedTags with
    | some ts => ts.map lowerStr
    | none => []
  match sd.cleaningRecommendations with
  | none => .ok (kw1 ++ kw2 ++ kw4)
  | some recs => do
      let kw3 ← recsKeywords recs
      .ok (kw1 ++ kw2 ++ kw3 ++ kw4)

/-- The combined searchable text of one product:
`` `${Title} ${Body (HTML)} ${Tags} ${Vendor}`.toLowerCase() ``. -/
def productText (p : Product) : String :=
  (jsStr p.Title ++ " " ++ jsStr p.BodyHTML ++ " " ++ jsStr p.Tags
    ++ " " ++ jsStr p.Vendor)
    |> lowerStr

/-- The guarded tag check `product.Tags && product.Tags.toLowerCase().includes(keyword)`. -/
def tagsHit (tags : Option String) (kw : String) : Bool :=
  match tags with
  | some t => t ≠ "" && jsIncludes (lowerStr t) kw
  | none => false

/-- One iteration of the scoring loop for one keyword.  Reaching
`product.Title.toLowerCase()` with a missing `Title` throws. -/
def scoreStep (p : Product) (text : String) (score : Nat) (kw : String) :
    Except String Nat :=
  if jsIncludes text kw then
    match p.Title with
    | none => .error "TypeError: product.Title is undefined"
    | some t =>
        if jsIncludes (lowerStr t) kw then .ok (score + 3)
        else if tagsHit p.Tags kw then .ok (score + 2)
        else .ok (score + 1)
  else .ok score

/-- The `keywords.forEach` scoring loop with its mutable accumulator. -/
def scoreLoop (p : Product) (text : String) : Nat → List String → Except String Nat
  | s, [] => .ok s
  | s, kw :: kws => do
      let s' ← scoreStep p text s kw
      scoreLoop p text s' kws

/-- Relevance score of one product against the keyword sequence
(part_000 lines 284-308). -/
def scoreProduct (keywords : List String) (p : Product) : Except String Nat :=
  scoreLoop p (productText p) 0 keywords

/-- A scored product together with its catalog position (the position
is ghost data; the source keeps it implicitly as array order). -/
structure ScoredItem where
  idx : Nat
  product : Product
  score : Nat
deriving DecidableEq, Repr

/-- Score every product of the catalog tail `ps`, whose first element
sits at catalog position `i`. -/
def scoreAllFrom (keywords : List String) : Nat → List Product → Except String (List ScoredItem)
  | _, [] => .ok []
  | i, p :: ps => do
      let s ← scoreProduct keywords p
      let rest ← scoreAllFrom keywords (i + 1) ps
      .ok (⟨i, p, s⟩ :: rest)

/-- Scoring of the whole catalog, `productsDatabase.map(...)` with the per-product score loop. -/
def scoreAll (db : List Product) (keywords : List String) :
    Except String (List ScoredItem) :=
  scoreAllFrom keywords 0 db

/-- Stable descending insertion: the incoming element `x` precedes every
already-placed element of score ≤ its own (already-placed elements come
later in the original order, so ties keep original order). -/
def insertD (x : ScoredItem) : List ScoredItem → List ScoredItem
  | [] => [x]
  | y :: ys => if y.score ≤ x.score then x :: y :: ys else y :: insertD x ys

/-- Stable sort by descending score, modelling
`.sort((a, b) => b.score - a.score)` (stable per ECMA-262). -/
def sortD : List ScoredItem → List ScoredItem
  | [] => []
  | x :: xs => insertD x (sortD xs)

/-- The output shape of one recommended product. -/
structure ProductSummary where
  id : Option String
  title : Option String
  price : String
  image : String
  vendor : Option String
  url : String
deriving DecidableEq, Repr

/-- Mapping of one retained scored product to its output summary
(part_000 lines 315-326). -/
def toSummary (it : ScoredItem) : ProductSummary :=
  { id := it.product.Handle
    title := it.product.Title
    price :=
      match it.product.VariantPrice with
      | some s => if s ≠ "" then "$" ++ s else "Price not available"
      | none => "Price not available"
    image :=
      match it.product.ImageSrc with
      | some s => if s ≠ "" then s else "https://via.placeholder.com/200x150?text=No+Image"
      | none => "https://via.placeholder.com/200x150?text=No+Image"
    vendor := it.product.Vendor
    url := "https://example.com/products/" ++ jsStr it.product.Handle }

/-- Filter to positive scores, stable-sort descending, truncate to 6
(part_000 lines 311-314). -/
def rankItems (db : List Product) (keywords : List String) :
    Except String (List ScoredItem) := do
  let scored ← scoreAll db keywords
  .ok ((sortD (scored.filter fun it => 0 < it.score)).take 6)

/-- The function `findRelevantProducts` (part_000 lines 213-330): empty-catalog
early return, keyword extraction, scoring, ranking, summary mapping. -/
def findRelevantProducts (db : List Product) (sd : ShoeDetails) :
    Except String (List ProductSummary) :=
  if db.length = 0 then .ok []
  else do
    let keywords ← extractKeywords sd
    let items ← rankItems db keywords
    .ok (items.map toSummary)

/-! ### Claim-side definitions, written from the specification's words -/

/-- Per-occurrence contribution of one keyword to a product's score, as
the specification words it: 0 unless the lower-cased space-joined
concatenation of title, body, tags and vendor contains the keyword;
otherwise 3 on a title match, else 2 on a tags match, else 1. -/
def specContribution (title body tags vendor kw : String) : Nat :=
  if jsIncludes (lowerStr (title ++ " " ++ body ++ " " ++ tags ++ " " ++ vendor)) kw then
    if jsIncludes (lowerStr title) kw then 3
    else if jsIncludes (lowerStr tags) kw then 2
    else 1
  else 0

/-- Split a character list at every character satisfying `p`, keeping
empty pieces. -/
def splitByP (p : Char → Bool) : List Char → List (List Char)
  | [] => [[]]
  | c :: cs =>
      if p c then [] :: splitByP p cs
      else
        match splitByP p cs with
        | r :: rs => (c :: r) :: rs
        | [] => [[c]]

/-- Whitespace-split tokens of a string: the non-empty pieces between
whitespace characters. -/
def wsTokens (s : String) : List String :=
  ((splitByP Char.isWhitespace s.data).map fun l => (⟨l⟩ : String)).filter
    fun t => t ≠ ""

/-- Keyword extraction as claim C2 words it: the concatenation of the
lower-cased whitespace-split tokens of `brandAndModel` when present,
the lower-cased non-empty non-sentinel material values, per
cleaning-recommendation entry the lower-cased `affectedPart` when
present followed by the lower-cased whitespace-split words of each
recommendation of length > 3 outside the stopword set, and each
recommended tag lower-cased. -/
def specExtractClaim (sd : ShoeDetails) : List String :=
  (match sd.brandAndModel with
   | some b => wsTokens (lowerStr b)
   | none => []) ++
  (match sd.materials with
   | some ms => ms.filterMap fun m =>
       if m ≠ "" && lowerStr m != "unknown" && lowerStr m != "unspecified" then
         some (lowerStr m)
       else none
   | none => []) ++
  (match sd.cleaningRecommendations with
   | some recs => recs.flatMap fun r =>
       (match r.affectedPart with
        | some a => [lowerStr a]
        | none => []) ++
       (match r.recommendations with
        | some rs => rs.flatMap fun s =>
            (wsTokens (lowerStr s)).filter fun w =>
              w.length > 3 && !(stopwords.contains w)
        | none => [])
   | none => []) ++
  (match sd.recommendedTags with
   | some ts => ts.map lowerStr
   | none => [])

/-- Keywords of one cleaning-recommendation entry as the amended claim
words them: the lower-cased `affectedPart` when present and non-empty,
then per recommendation string the lower-cased words split at the space
character of length > 3 outside the stopword set. -/
def amendedRecKeywords (r : CleaningRec) : List String :=
  (match r.affectedPart with
   | some a => if a ≠ "" then [lowerStr a] else []
   | none => []) ++
  (match r.recommendations with
   | some rs => rs.flatMap fun s =>
       (spaceSplit (lowerStr s)).filter fun w =>
         w.length > 3 && !(stopwords.contains w)
   | none => [])

/-- Keyword extraction as amended: splitting is at the single space
character with empty pieces kept, and `brandAndModel` / `affectedPart`
contribute only when present and non-empty. -/
def specExtractAmended (sd : ShoeDetails) : List String :=
  (match sd.brandAndModel with
   | some b => if b ≠ "" then spaceSplit (lowerStr b) else []
   | none => []) ++
  (match sd.materials with
   | some ms => ms.filterMap fun m =>
       if m ≠ "" && lowerStr m != "unknown" && lowerStr m != "unspecified" then
         some (lowerStr m)
       else none
   | none => []) ++
  (match sd.cleaningRecommendations with
   | some recs => recs.flatMap amendedRecKeywords
   | none => []) ++
  (match sd.recommendedTags with
   | some ts => ts.map lowerStr
   | none => [])

/-! ### Concrete inputs used by witnesses and counterexamples -/

/-- Product P1 of the specification's example scenario. -/
def prodP1 : Product :=
  ⟨some "p1", some "Leather Cleaner Spray", some "", some "cleaner,leather",
   some "Acme", some "9.99", none⟩

/-- Product P2 of the specification's example scenario. -/
def prodP2 : Product :=
  ⟨some "p2", some "Suede Brush", some "works well", some "brush,suede",
   some "Acme", some "", none⟩

/-- Product P3 of the specification's example scenario. -/
def prodP3 : Product :=
  ⟨some "p3", some "Generic Shoe Polish", some "contains leather conditioner",
   some "polish", some "Acme", some "5.00", none⟩

/-- The catalog of the specification's example scenario. -/
def dbExample : List Product := [prodP1, prodP2, prodP3]

/-- The structured description of the specification's example scenario. -/
def sdExample : ShoeDetails :=
  { brandAndModel := none
    materials := some ["leather"]
    cleaningRecommendations :=
      some [⟨some "Upper", some ["Use a leather cleaner regularly"]⟩]
    recommendedTags := none }

/-- The keyword sequence of the specification's example scenario. -/
def kwExample : List String := ["leather", "upper", "leather", "cleaner", "regularly"]

/-- A catalog row with no `Title` key (and no `Handle` key). -/
def prodNoTitle : Product := ⟨none, none, some "", some "", some "", none, none⟩

/-- A description whose only cleaning-recommendation entry has no
`recommendations` key. -/
def sdNoRecs : ShoeDetails :=
  { brandAndModel := none
    materials := none
    cleaningRecommendations := some [⟨some "upper", none⟩]
    recommendedTags := none }

/-- A description with a double space in `brandAndModel` and an empty
`affectedPart`. -/
def sdDoubleSpace : ShoeDetails :=
  { brandAndModel := some "a  b"
    materials := none
    cleaningRecommendations := some [⟨some "", some []⟩]
    recommendedTags := none }

/-- A description whose only keyword is the literal string "undefined". -/
def sdUndefTag : ShoeDetails :=
  { brandAndModel := none
    materials := none
    cleaningRecommendations := none
    recommendedTags := some ["undefined"] }

/-- A description with no populated field. -/
def sdEmptyAll : ShoeDetails :=
  { brandAndModel := none
    materials := none
    cleaningRecommendations := none
    recommendedTags := none }

/-! ### Helper lemmas -/

theorem bindOk {ε α β : Type} (x : α) (f : α → Except ε β) :
    (Except.ok x >>= f) = f x := rfl

theorem bindError {ε α β : Type} (e : ε) (f : α → Except ε β) :
    (Except.error e >>= f : Except ε β) = Except.error e := rfl

theorem isSubstrAux_nil (l : List Char) : isSubstrAux [] l = true := by
  cases l <;> rfl

theorem jsIncludes_empty_pat (s : String) : jsIncludes s "" = true :=
  isSubstrAux_nil s.toList

theorem eq_empty_of_jsIncludes_empty_str {pat : String}
    (h : jsIncludes "" pat = true) : pat = "" := by
  cases pat with
  | mk data =>
    cases data with
    | nil => rfl
    | cons c cs => simp [jsIncludes, isSubstrAux, String.toList] at h

theorem tagsHit_eq_of_title_miss {t kw : String} (tg : String)
    (h2 : jsIncludes (lowerStr t) kw = false) :
    tagsHit (some tg) kw = jsIncludes (lowerStr tg) kw := by
  by_cases htg : tg = ""
  · subst htg
    have hkw : kw ≠ "" := by
      intro hk
      subst hk
      rw [jsIncludes_empty_pat] at h2
      cases h2
    have hfalse : jsIncludes (lowerStr "") kw = false := by
      cases hx : jsIncludes "" kw with
      | false => exact hx
      | true => exact absurd (eq_empty_of_jsIncludes_empty_str hx) hkw
    simp [tagsHit, hfalse]
  · simp [tagsHit, htg]

theorem scoreStep_eq_specContribution {p : Product} {t b tg v : String}
    (hT : p.Title = some t) (hB : p.BodyHTML = some b) (hG : p.Tags = some tg)
    (hV : p.Vendor = some v) (s : Nat) (kw : String) :
    scoreStep p (productText p) s kw = .ok (s + specContribution t b tg v kw) := by
  have htext : productText p = lowerStr (t ++ " " ++ b ++ " " ++ tg ++ " " ++ v) := by
    simp [productText, hT, hB, hG, hV, jsStr]
  rw [htext]
  simp only [scoreStep, specContribution, hT, hG]
  cases h1 : jsIncludes (lowerStr (t ++ " " ++ b ++ " " ++ tg ++ " " ++ v)) kw with
  | false => simp [h1]
  | true =>
    cases h2 : jsIncludes (lowerStr t) kw with
    | true => simp [h1, h2]
    | false =>
      rw [tagsHit_eq_of_title_miss tg h2]
      cases h3 : jsIncludes (lowerStr tg) kw with
      | true => simp [h1, h2, h3]
      | false => simp [h1, h2, h3]

theorem scoreLoop_eq_add_sum {p : Product} {t b tg v : String}
    (hT : p.Title = some t) (hB : p.BodyHTML = some b) (hG : p.Tags = some tg)
    (hV : p.Vendor = some v) :
    ∀ (kws : List String) (s : Nat),
      scoreLoop p (productText p) s kws =
        .ok (s + (kws.map (specContribution t b tg v)).sum)
  | [], s => by simp [scoreLoop]
  | kw :: kws, s => by
    rw [scoreLoop, scoreStep_eq_specContribution hT hB hG hV, bindOk,
      scoreLoop_eq_add_sum hT hB hG hV kws]
    simp [Nat.add_assoc]

theorem scoreStep_ok_of_title {p : Product} {t : String} (hT : p.Title = some t)
    (text : String) (s : Nat) (kw : String) :
    ∃ n, scoreStep p text s kw = .ok n ∧ s ≤ n := by
  cases h1 : jsIncludes text kw with
  | false => exact ⟨s, by simp [scoreStep, h1], Nat.le_refl s⟩
  | true =>
    cases h2 : jsIncludes (lowerStr t) kw with
    | true => exact ⟨s + 3, by simp [scoreStep, hT, h1, h2], Nat.le_add_right s 3⟩
    | false =>
      cases h3 : tagsHit p.Tags kw with
      | true => exact ⟨s + 2, by simp [scoreStep, hT, h1, h2, h3], Nat.le_add_right s 2⟩
      | false => exact ⟨s + 1, by simp [scoreStep, hT, h1, h2, h3], Nat.le_add_right s 1⟩

theorem scoreLoop_ok_of_title {p : Product} {t : String} (hT : p.Title = some t)
    (text : String) :
    ∀ (kws : List String) (s : Nat), ∃ n, scoreLoop p text s kws = .ok n ∧ s ≤ n
  | [], s => ⟨s, rfl, Nat.le_refl s⟩
  | kw :: kws, s => by
    obtain ⟨m, hm, hsm⟩ := scoreStep_ok_of_title hT text s kw
    obtain ⟨n, hn, hmn⟩ := scoreLoop_ok_of_title hT text kws m
    exact ⟨n, by rw [scoreLoop, hm, bindOk, hn], Nat.le_trans hsm hmn⟩

theorem scoreLoop_pos_of_empty_mem {p : Product} {t : String} (hT : p.Title = some t) :
    ∀ (kws : List String), "" ∈ kws →
      ∀ s : Nat, ∃ n, scoreLoop p (productText p) s kws = .ok n ∧ 0 < n
  | kw :: kws, hmem, s => by
    rcases List.mem_cons.mp hmem with heq | htail
    · subst heq
      have hstep : scoreStep p (productText p) s "" = .ok (s + 3) := by
        simp [scoreStep, hT, jsIncludes_empty_pat]
      obtain ⟨n, hn, hle⟩ := scoreLoop_ok_of_title hT (productText p) kws (s + 3)
      exact ⟨n, by rw [scoreLoop, hstep, bindOk, hn], by omega⟩
    · obtain ⟨m, hm, _⟩ := scoreStep_ok_of_title hT (productText p) s kw
      obtain ⟨n, hn, hpos⟩ := scoreLoop_pos_of_empty_mem hT kws htail m
      exact ⟨n, by rw [scoreLoop, hm, bindOk, hn], hpos⟩

theorem scoreAllFrom_spec (kws : List String) :
    ∀ (i : Nat) (ps : List Product) (l : List ScoredItem),
      scoreAllFrom kws i ps = .ok l →
      (∀ it ∈ l, scoreProduct kws it.product = .ok it.score ∧
        ∃ j, it.idx = i + j ∧ ps[j]? = some it.product) ∧
      l.Pairwise (fun a b => a.idx < b.idx)
  | i, [], l, h => by
    rw [scoreAllFrom] at h
    injection h with h
    subst h
    exact ⟨by simp, List.Pairwise.nil⟩
  | i, p :: ps, l, h => by
    rw [scoreAllFrom] at h
    cases hs : scoreProduct kws p with
    | error e => rw [hs, bindError] at h; cases h
    | ok s =>
      rw [hs, bindOk] at h
      cases hr : scoreAllFrom kws (i + 1) ps with
      | error e => rw [hr, bindError] at h; cases h
      | ok rest =>
        rw [hr, bindOk] at h
        injection h with h
        subst h
        obtain ⟨ih1, ih2⟩ := scoreAllFrom_spec kws (i + 1) ps rest hr
        constructor
        · intro it hit
          rcases List.mem_cons.mp hit with heq | htail
          · subst heq
            exact ⟨hs, 0, by simp⟩
          · obtain ⟨hscore, j, hj, hget⟩ := ih1 it htail
            exact ⟨hscore, j + 1, by omega, by simpa using hget⟩
        · refine List.Pairwise.cons (fun b hb => ?_) ih2
          obtain ⟨_, j, hj, _⟩ := ih1 b hb
          simp only
          omega

theorem scoreAllFrom_ok_of_titles (kws : List String) :
    ∀ (i : Nat) (ps : List Product), (∀ p ∈ ps, p.Title.isSome) →
      ∃ l, scoreAllFrom kws i ps = .ok l
  | i, [], _ => ⟨[], rfl⟩
  | i, p :: ps, h => by
    obtain ⟨t, ht⟩ := Option.isSome_iff_exists.mp (h p (List.mem_cons_self p ps))
    obtain ⟨n, hn, _⟩ := scoreLoop_ok_of_title ht (productText p) kws 0
    obtain ⟨rest, hrest⟩ :=
      scoreAllFrom_ok_of_titles kws (i + 1) ps (fun q hq => h q (List.mem_cons_of_mem p hq))
    exact ⟨⟨i, p, n⟩ :: rest, by rw [scoreAllFrom, scoreProduct, hn, bindOk, hrest, bindOk]⟩

theorem scoreAllFrom_nil_kw :
    ∀ (i : Nat) (ps : List Product),
      ∃ l, scoreAllFrom [] i ps = .ok l ∧ ∀ it ∈ l, it.score = 0
  | i, [] => ⟨[], rfl, by simp⟩
  | i, p :: ps => by
    obtain ⟨l, hl, hz⟩ := scoreAllFrom_nil_kw (i + 1) ps
    refine ⟨⟨i, p, 0⟩ :: l, ?_, ?_⟩
    · rw [scoreAllFrom]
      have : scoreProduct [] p = .ok 0 := rfl
      rw [this, bindOk, hl, bindOk]
    · intro it hit
      rcases List.mem_cons.mp hit with heq | htail
      · subst heq; rfl
      · exact hz it htail

theorem insertD_perm (x : ScoredItem) : ∀ l : List ScoredItem, List.Perm (insertD x l) (x :: l)
  | [] => List.Perm.refl [x]
  | y :: ys => by
    rw [insertD]
    by_cases h : y.score ≤ x.score
    · simp [h]
    · simp only [h, if_false]
      exact (List.Perm.cons y (insertD_perm x ys)).trans (List.Perm.swap x y ys)

theorem sortD_perm : ∀ l : List ScoredItem, List.Perm (sortD l) l
  | [] => List.Perm.refl []
  | x :: xs => (insertD_perm x (sortD xs)).trans (List.Perm.cons x (sortD_perm xs))

theorem pairwise_insertD {x : ScoredItem} :
    ∀ {l : List ScoredItem},
      l.Pairwise (fun a b => b.score < a.score ∨ (a.score = b.score ∧ a.idx < b.idx)) →
      (∀ y ∈ l, x.idx < y.idx) →
      (insertD x l).Pairwise (fun a b => b.score < a.score ∨ (a.score = b.score ∧ a.idx < b.idx))
  | [], _, _ => List.pairwise_singleton _ x
  | y :: ys, hl, hx => by
    obtain ⟨hy, hys⟩ := List.pairwise_cons.mp hl
    rw [insertD]
    by_cases h : y.score ≤ x.score
    · simp only [h, if_true]
      refine List.Pairwise.cons (fun z hz => ?_) hl
      rcases List.mem_cons.mp hz with heq | htail
      · subst heq
        have := hx z (List.mem_cons_self z ys)
        omega
      · have hyz := hy z htail
        have hxz := hx z (List.mem_cons_of_mem y htail)
        omega
    · simp only [h, if_false]
      refine List.Pairwise.cons (fun z hz => ?_) ?_
      · rcases List.mem_cons.mp ((insertD_perm x ys).mem_iff.mp hz) with heq | htail
        · subst heq
          omega
        · exact hy z htail
      · exact pairwise_insertD hys fun z hz => hx z (List.mem_cons_of_mem y hz)

theorem sortD_pairwise :
    ∀ {l : List ScoredItem},
      l.Pairwise (fun a b => a.idx < b.idx) →
      (sortD l).Pairwise (fun a b => b.score < a.score ∨ (a.score = b.score ∧ a.idx < b.idx))
  | [], _ => List.Pairwise.nil
  | x :: xs, h => by
    obtain ⟨hx, hxs⟩ := List.pairwise_cons.mp h
    exact pairwise_insertD (sortD_pairwise hxs)
      fun y hy => hx y ((sortD_perm xs).mem_iff.mp hy)

theorem recKeywords_eq_amended {r : CleaningRec} (h : r.recommendations.isSome) :
    recKeywords r = .ok (amendedRecKeywords r) := by
  obtain ⟨rs, hrs⟩ := Option.isSome_iff_exists.mp h
  simp [recKeywords, amendedRecKeywords, hrs]

theorem recsKeywords_eq_amended :
    ∀ recs : List CleaningRec, (∀ r ∈ recs, r.recommendations.isSome) →
      recsKeywords recs = .ok (recs.flatMap amendedRecKeywords)
  | [], _ => rfl
  | r :: rs, h => by
    rw [recsKeywords, recKeywords_eq_amended (h r (List.mem_cons_self r rs)), bindOk,
      recsKeywords_eq_amended rs (fun q hq => h q (List.mem_cons_of_mem r hq)), bindOk]
    simp

theorem extract_eq_amended (sd : ShoeDetails)
    (h : ∀ r ∈ sd.cleaningRecommendations.getD [], r.recommendations.isSome) :
    extractKeywords sd = .ok (specExtractAmended sd) := by
  obtain ⟨bm, ms, recs, tags⟩ := sd
  cases recs with
  | none => simp [extractKeywords, specExtractAmended, materialKeywords]
  | some recs =>
    have hr : ∀ r ∈ recs, r.recommendations.isSome := by simpa using h
    simp only [extractKeywords, specExtractAmended,
      recsKeywords_eq_amended recs hr, bindOk, materialKeywords]

theorem materialKeywords_cons_sentinel {v : String}
    (h : lowerStr v = "unknown" ∨ lowerStr v = "unspecified") (ms : List String) :
    materialKeywords (v :: ms) = materialKeywords ms := by
  rcases h with h | h <;> simp [materialKeywords, h]

theorem materialKeywords_sentinel_anywhere {v : String}
    (h : lowerStr v = "unknown" ∨ lowerStr v = "unspecified")
    (pre post : List String) :
    materialKeywords (pre ++ v :: post) = materialKeywords (pre ++ post) := by
  have hcons := materialKeywords_cons_sentinel h post
  simp only [materialKeywords, List.filterMap_append] at hcons ⊢
  rw [hcons]

/-! ### Claim theorems -/

/-- C1: for every keyword sequence and every product record, the
relevance score is the sum, over keyword occurrences, of a
per-occurrence contribution: 0 when the lower-cased space-joined
concatenation of title, body, tags and vendor does not contain the
keyword, else 3 on a title match, else 2 on a tags match, else 1; a
keyword occurring twice contributes twice. -/
theorem scoreProduct_eq_sum_spec (kws : List String) (p : Product) (t b tg v : String)
    (hT : p.Title = some t) (hB : p.BodyHTML = some b) (hG : p.Tags = some tg)
    (hV : p.Vendor = some v) :
    scoreProduct kws p = .ok ((kws.map (specContribution t b tg v)).sum) := by
  rw [scoreProduct, scoreLoop_eq_add_sum hT hB hG hV kws 0, Nat.zero_add]

/-- Witness for C1 at the specification's example scenario. -/
theorem scoreProduct_eq_sum_spec_witness :
    scoreProduct kwExample prodP1 =
      .ok ((kwExample.map
        (specContribution "Leather Cleaner Spray" "" "cleaner,leather" "Acme")).sum) :=
  scoreProduct_eq_sum_spec kwExample prodP1 _ _ _ _ rfl rfl rfl rfl

/-- C9: an empty-string keyword matches every product (substring
containment of the empty string always holds), so a keyword sequence
containing an empty-string occurrence gives every product a strictly
positive score. -/
theorem scoreProduct_pos_of_empty_keyword (p : Product) (t : String) (kws : List String)
    (hT : p.Title = some t) (hmem : "" ∈ kws) :
    jsIncludes (productText p) "" = true ∧
      ∃ n, scoreProduct kws p = .ok n ∧ 0 < n := by
  refine ⟨jsIncludes_empty_pat _, ?_⟩
  obtain ⟨n, hn, hpos⟩ := scoreLoop_pos_of_empty_mem hT kws hmem 0
  exact ⟨n, hn, hpos⟩

/-- Witness for C9 on product P2 with the singleton empty keyword. -/
theorem scoreProduct_pos_of_empty_keyword_witness :
    jsIncludes (productText prodP2) "" = true ∧
      ∃ n, scoreProduct [""] prodP2 = .ok n ∧ 0 < n :=
  scoreProduct_pos_of_empty_keyword prodP2 "Suede Brush" [""] rfl (by decide)

/-- C6: a material value equal (case-insensitively) to "unknown" or
"unspecified" contributes no keyword to the extracted sequence,
whichever material slot it occupies: extraction on a materials list
with the sentinel at any position equals extraction with that slot
removed. -/
theorem extractKeywords_sentinel_material_dropped (v : String)
    (h : lowerStr v = "unknown" ∨ lowerStr v = "unspecified")
    (bm : Option String) (pre post : List String)
    (recs : Option (List CleaningRec)) (tags : Option (List String)) :
    extractKeywords ⟨bm, some (pre ++ v :: post), recs, tags⟩ =
      extractKeywords ⟨bm, some (pre ++ post), recs, tags⟩ := by
  simp only [extractKeywords]
  rw [materialKeywords_sentinel_anywhere h]

/-- Witness for C6 with the sentinel written "Unknown" in a non-head
slot. -/
theorem extractKeywords_sentinel_material_dropped_witness :
    extractKeywords ⟨none, some ["leather", "Unknown"], none, none⟩ =
      extractKeywords ⟨none, some ["leather"], none, none⟩ :=
  extractKeywords_sentinel_material_dropped "Unknown" (Or.inl (by decide))
    none ["leather"] [] none none

/-- C7: on an empty catalog the selection returns the empty sequence
immediately, and whenever extraction yields the empty keyword sequence
the selection also returns the empty sequence; neither case errors. -/
theorem select_empty_cases :
    (∀ sd : ShoeDetails, findRelevantProducts [] sd = .ok []) ∧
    (∀ (db : List Product) (sd : ShoeDetails),
      extractKeywords sd = .ok [] → findRelevantProducts db sd = .ok []) := by
  constructor
  · intro sd
    rfl
  · intro db sd hex
    by_cases hdb : db.length = 0
    · simp [findRelevantProducts, hdb]
    · obtain ⟨l, hl, hz⟩ := scoreAllFrom_nil_kw 0 db
      have hfil : l.filter (fun it => 0 < it.score) = [] :=
        List.filter_eq_nil_iff.mpr fun it hit => by simp [hz it hit]
      rw [findRelevantProducts, if_neg hdb, hex, bindOk, rankItems, scoreAll, hl,
        bindOk, hfil]
      rfl

/-- Witness for C7 on the example catalog and descriptions. -/
theorem select_empty_cases_witness :
    findRelevantProducts [] sdExample = .ok [] ∧
    findRelevantProducts dbExample sdEmptyAll = .ok [] :=
  ⟨select_empty_cases.1 sdExample, select_empty_cases.2 dbExample sdEmptyAll rfl⟩

/-- C2 counterexample: on a `brandAndModel` with a double space and an
empty present `affectedPart`, the code yields ["a", "", "b"] while the
claim's whitespace-split reading yields ["a", "b", ""]. -/
theorem extractKeywords_ne_specClaim :
    extractKeywords sdDoubleSpace = .ok ["a", "", "b"] ∧
    specExtractClaim sdDoubleSpace = ["a", "b", ""] ∧
    (["a", "", "b"] : List String) ≠ ["a", "b", ""] :=
  ⟨rfl, rfl, by decide⟩

/-- C2 (amended): extraction equals the claimed concatenation once
splitting is at the single space character keeping empty tokens, and
`brandAndModel` / `affectedPart` contribute only when truthy; the
entries must carry their `recommendations` arrays. -/
theorem extractKeywords_eq_specAmended (sd : ShoeDetails)
    (h : ∀ r ∈ sd.cleaningRecommendations.getD [], r.recommendations.isSome) :
    extractKeywords sd = .ok (specExtractAmended sd) :=
  extract_eq_amended sd h

/-- Witness for the amended C2 at the example description. -/
theorem extractKeywords_eq_specAmended_witness :
    extractKeywords sdExample = .ok (specExtractAmended sdExample) :=
  extractKeywords_eq_specAmended sdExample (by decide)

/-- C3 counterexample: the pipeline throws on a description whose
cleaning-recommendation entry lacks its `recommendations` array, and on
a catalog row without `Title` once a keyword matches the row text. -/
theorem findRelevantProducts_error_on_missing_fields :
    (∃ e, findRelevantProducts [prodP1] sdNoRecs = .error e) ∧
    (∃ e, findRelevantProducts [prodNoTitle] sdUndefTag = .error e) :=
  ⟨⟨_, rfl⟩, ⟨_, rfl⟩⟩

/-- C3 (amended): the pipeline runs to completion without error on
every input whose catalog rows all carry a `Title` value and whose
cleaning-recommendation entries all carry a `recommendations` array. -/
theorem findRelevantProducts_total_of_wellFormed (db : List Product) (sd : ShoeDetails)
    (hdb : ∀ p ∈ db, p.Title.isSome)
    (hsd : ∀ r ∈ sd.cleaningRecommendations.getD [], r.recommendations.isSome) :
    ∃ res, findRelevantProducts db sd = .ok res := by
  by_cases h0 : db.length = 0
  · exact ⟨[], by rw [findRelevantProducts, if_pos h0]⟩
  · obtain ⟨l, hl⟩ := scoreAllFrom_ok_of_titles (specExtractAmended sd) 0 db hdb
    refine ⟨((sortD (l.filter fun it => 0 < it.score)).take 6).map toSummary, ?_⟩
    rw [findRelevantProducts, if_neg h0, extract_eq_amended sd hsd, bindOk,
      rankItems, scoreAll, hl, bindOk, bindOk]

/-- Witness for the amended C3 at the example inputs. -/
theorem findRelevantProducts_total_of_wellFormed_witness :
    ∃ res, findRelevantProducts dbExample sdExample = .ok res :=
  findRelevantProducts_total_of_wellFormed dbExample sdExample (by decide) (by decide)

/-- C4: the ranked result is in descending score order with stable
tie-break: at equal scores the item with the smaller catalog position
comes first, and the catalog position is the sole tie-break. -/
theorem rankItems_sorted_stable (db : List Product) (kws : List String)
    (items : List ScoredItem) (h : rankItems db kws = .ok items) :
    items.Pairwise (fun a b => b.score < a.score ∨ (a.score = b.score ∧ a.idx < b.idx)) := by
  cases hs : scoreAll db kws with
  | error e => rw [rankItems, hs, bindError] at h; cases h
  | ok scored =>
    rw [rankItems, hs, bindOk] at h
    injection h with h
    subst h
    have hidx : (scored.filter fun it => 0 < it.score).Pairwise (fun a b => a.idx < b.idx) :=
      List.Pairwise.sublist (List.filter_sublist scored)
        (scoreAllFrom_spec kws 0 db scored hs).2
    exact List.Pairwise.sublist (List.take_sublist 6 _) (sortD_pairwise hidx)

/-- Witness for C4 at the example scenario's ranked items. -/
theorem rankItems_sorted_stable_witness :
    List.Pairwise (fun a b => b.score < a.score ∨ (a.score = b.score ∧ a.idx < b.idx))
      ([⟨0, prodP1, 9⟩, ⟨2, prodP3, 2⟩] : List ScoredItem) :=
  rankItems_sorted_stable dbExample kwExample _ rfl

/-- C5: a successful result is the first six entries of the filtered
and stably sorted scored list, mapped to summaries, so its length is at
most 6. -/
theorem findRelevantProducts_topSix (db : List Product) (sd : ShoeDetails)
    (res : List ProductSummary) (h : findRelevantProducts db sd = .ok res) :
    res.length ≤ 6 ∧
    (db.length ≠ 0 →
      ∃ kws scored, extractKeywords sd = .ok kws ∧ scoreAll db kws = .ok scored ∧
        res = ((sortD (scored.filter fun it => 0 < it.score)).take 6).map toSummary) := by
  by_cases h0 : db.length = 0
  · rw [findRelevantProducts, if_pos h0] at h
    injection h with h
    subst h
    exact ⟨by simp, fun hne => absurd h0 hne⟩
  · rw [findRelevantProducts, if_neg h0] at h
    cases hex : extractKeywords sd with
    | error e => rw [hex, bindError] at h; cases h
    | ok kws =>
      rw [hex, bindOk] at h
      cases hri : rankItems db kws with
      | error e => rw [hri, bindError] at h; cases h
      | ok items =>
        rw [hri, bindOk] at h
        injection h with h
        subst h
        cases hs : scoreAll db kws with
        | error e => rw [rankItems, hs, bindError] at hri; cases hri
        | ok scored =>
          rw [rankItems, hs, bindOk] at hri
          injection hri with hri
          subst hri
          refine ⟨?_, fun _ => ⟨kws, scored, rfl, hs, rfl⟩⟩
          rw [List.length_map]
          exact List.length_take_le 6 _

/-- Witness for C5 at the example scenario. -/
theorem findRelevantProducts_topSix_witness :
    ([toSummary ⟨0, prodP1, 9⟩, toSummary ⟨2, prodP3, 2⟩] : List ProductSummary).length ≤ 6 ∧
    (dbExample.length ≠ 0 →
      ∃ kws scored, extractKeywords sdExample = .ok kws ∧
        scoreAll dbExample kws = .ok scored ∧
        ([toSummary ⟨0, prodP1, 9⟩, toSummary ⟨2, prodP3, 2⟩] : List ProductSummary) =
          ((sortD (scored.filter fun it => 0 < it.score)).take 6).map toSummary) :=
  findRelevantProducts_topSix dbExample sdExample _ rfl

/-- C8: every ranked item carries a strictly positive score, that score
is what rescoring its product against the same keywords yields, and the
item's position points at its product in the catalog. -/
theorem rankItems_positive_scores (db : List Product) (kws : List String)
    (items : List ScoredItem) (h : rankItems db kws = .ok items) :
    ∀ it ∈ items, 0 < it.score ∧ scoreProduct kws it.product = .ok it.score ∧
      db[it.idx]? = some it.product := by
  cases hs : scoreAll db kws with
  | error e => rw [rankItems, hs, bindError] at h; cases h
  | ok scored =>
    rw [rankItems, hs, bindOk] at h
    injection h with h
    subst h
    intro it hit
    have hsort : it ∈ sortD (scored.filter fun it => 0 < it.score) :=
      (List.take_sublist 6 _).subset hit
    have hfil : it ∈ scored.filter fun it => 0 < it.score :=
      (sortD_perm _).mem_iff.mp hsort
    have hmem := List.mem_filter.mp hfil
    have hpos : 0 < it.score := by simpa using hmem.2
    obtain ⟨hscore, j, hj, hget⟩ := (scoreAllFrom_spec kws 0 db scored hs).1 it hmem.1
    refine ⟨hpos, hscore, ?_⟩
    rw [hj, Nat.zero_add]
    exact hget

/-- Witness for C8 at the top item of the example scenario. -/
theorem rankItems_positive_scores_witness :
    0 < (⟨0, prodP1, 9⟩ : ScoredItem).score ∧
      scoreProduct kwExample (⟨0, prodP1, 9⟩ : ScoredItem).product =
        .ok (⟨0, prodP1, 9⟩ : ScoredItem).score ∧
      dbExample[(⟨0, prodP1, 9⟩ : ScoredItem).idx]? =
        some (⟨0, prodP1, 9⟩ : ScoredItem).product :=
  rankItems_positive_scores dbExample kwExample _ rfl ⟨0, prodP1, 9⟩ (by decide)

/-- C10: the ranked items carry pairwise distinct catalog positions, so
no catalog entry yields two entries of the result. -/
theorem rankItems_idx_nodup (db : List Product) (kws : List String)
    (items : List ScoredItem) (h : rankItems db kws = .ok items) :
    items.Pairwise (fun a b => a.idx ≠ b.idx) := by
  cases hs : scoreAll db kws with
  | error e => rw [rankItems, hs, bindError] at h; cases h
  | ok scored =>
    rw [rankItems, hs, bindOk] at h
    injection h with h
    subst h
    have h1 : (scored.filter fun it => 0 < it.score).Pairwise (fun a b => a.idx < b.idx) :=
      List.Pairwise.sublist (List.filter_sublist scored)
        (scoreAllFrom_spec kws 0 db scored hs).2
    have h2 : (scored.filter fun it => 0 < it.score).Pairwise (fun a b => a.idx ≠ b.idx) :=
      h1.imp Nat.ne_of_lt
    have h3 := (List.Perm.pairwise_iff (fun hab => Ne.symm hab) (sortD_perm _)).mpr h2
    exact List.Pairwise.sublist (List.take_sublist 6 _) h3

/-- Witness for C10 at the example scenario's ranked items. -/
theorem rankItems_idx_nodup_witness :
    List.Pairwise (fun a b => a.idx ≠ b.idx)
      ([⟨0, prodP1, 9⟩, ⟨2, prodP3, 2⟩] : List ScoredItem) :=
  rankItems_idx_nodup dbExample kwExample _ rfl

end ShoeRank
